import Mathlib

/-!
Verification of the EmblemSync component-tracker repository.

The definitions below are a shallow embedding of the upload-ingestion
pipeline and list-filtering code of the repository:

* `mapComplexity` / `mapStatus` — the field normalizers of
  `src/pages/ViewAllPage.tsx` (lines 160-211).
* `processFileFE` — `processFile` of `frontend/src/pages/UploadPage.tsx`.
* `processUploadFileVA` — `processUploadFile` of `src/pages/ViewAllPage.tsx`.
* `saveToDatabase` / `handleUploadVA` — the store-mutation steps guarding
  on the upload result.
* `filteredComponentsFE` — the filter of `frontend/src/pages/ViewAllPage.tsx`.
* `deleteComponentStep` — `deleteComponent` of the data context.

External libraries (PapaParse, XLSX, JSON.parse, the HTTP backend) are
modelled at their boundary: a file is given to the pipeline as the row
list / item list the external parser would produce, and backend calls are
higher-order parameters.  JavaScript strings are Lean `String`s, absent
(`undefined`) values are `Option`, and JavaScript truthiness of a string
is emptiness.
-/

/-- ASCII lower-casing of a string, the behaviour of JavaScript
`toLowerCase` on the ASCII alias strings involved here. -/
def jsToLower (s : String) : String := String.mk (s.data.map Char.toLower)

/-- Whitespace trimming of both ends, the behaviour of JavaScript
`trim`. -/
def jsTrim (s : String) : String :=
  String.mk (((s.data.dropWhile Char.isWhitespace).reverse.dropWhile
    Char.isWhitespace).reverse)

/-- Splitting a character list at a separator character; the last piece is
always present, so splitting the empty list yields one empty piece. -/
def splitOnChar (sep : Char) : List Char → List (List Char)
  | [] => [[]]
  | c :: rest =>
      let r := splitOnChar sep rest
      if c = sep then [] :: r
      else
        match r with
        | [] => [[c]]
        | h :: t => (c :: h) :: t

/-- JavaScript `s.split(sep)` for a one-character separator. -/
def jsSplit (s : String) (sep : Char) : List String :=
  (splitOnChar sep s.data).map String.mk

/-- JavaScript `value?.toLowerCase()?.trim()`: `undefined` propagates,
otherwise lower-case then trim. -/
def jsNorm (v : Option String) : Option String :=
  v.map (fun s => jsTrim (jsToLower s))

/-- JavaScript `s || dflt` for strings: the empty string is falsy. -/
def jsOr (s dflt : String) : String := if s = "" then dflt else s

/-- JavaScript `haystack.includes(needle)`: substring containment. -/
def jsIncludes (s sub : String) : Bool := decide (sub.data <:+: s.data)

/-- Numeric value of a leading run of decimal digits, `none` when there is
no leading digit (the NaN case of `parseInt`). -/
def leadingNat (cs : List Char) : Option Nat :=
  let ds := cs.takeWhile Char.isDigit
  if ds.isEmpty then none
  else some (ds.foldl (fun a c => a * 10 + (c.toNat - 48)) 0)

/-- JavaScript `parseInt(s)` in base 10: skip whitespace, optional sign,
leading decimal digits; `none` models NaN. -/
def jsParseInt (s : String) : Option Int :=
  match (jsTrim s).data with
  | '-' :: rest => (leadingNat rest).map (fun n => -(n : Int))
  | '+' :: rest => (leadingNat rest).map (fun n => (n : Int))
  | cs => (leadingNat cs).map (fun n => (n : Int))

/-- JavaScript `parseInt(s) || dflt`: both NaN and 0 are falsy. -/
def jsParseIntOr (s : String) (dflt : Int) : Int :=
  match jsParseInt s with
  | some n => if n = 0 then dflt else n
  | none => dflt

/-- Alias strings mapped to `'Simple'` by `mapComplexity`
(`src/pages/ViewAllPage.tsx`, the first `switch` group). -/
def complexitySimpleAliases : List String := ["low", "simple", "easy", "basic"]

/-- Alias strings mapped to `'Complex'` by `mapComplexity`. -/
def complexityComplexAliases : List String :=
  ["high", "complex", "hard", "difficult", "advanced"]

/-- The complexity normalizer `mapComplexity` of `src/pages/ViewAllPage.tsx`
(lines 160-181): lower-case and trim, match the alias table, default
`'Medium'` (the explicit `'medium'`/`'moderate'`/`'intermediate'`/`'mid'`
cases share the default arm in the source). -/
def mapComplexity (value : Option String) : String :=
  match jsNorm value with
  | some n =>
      if n ∈ complexitySimpleAliases then "Simple"
      else if n ∈ complexityComplexAliases then "Complex"
      else "Medium"
  | none => "Medium"

/-- Alias strings mapped to `'Released'` by `mapStatus`. -/
def statusReleasedAliases : List String :=
  ["released", "live", "production", "deployed", "complete", "done"]

/-- Alias strings mapped to `'In Development'` by `mapStatus`. -/
def statusInDevAliases : List String :=
  ["in development", "in-development", "development", "dev",
   "in progress", "in-progress", "active", "working"]

/-- The status normalizer `mapStatus` of `src/pages/ViewAllPage.tsx`
(lines 184-211): lower-case and trim, match the alias table, default
`'Planned'` (the explicit `'planned'`/`'pending'`/`'future'`/`'scheduled'`/
`'upcoming'` cases share the default arm in the source). -/
def mapStatus (value : Option String) : String :=
  match jsNorm value with
  | some n =>
      if n ∈ statusReleasedAliases then "Released"
      else if n ∈ statusInDevAliases then "In Development"
      else "Planned"
  | none => "Planned"

/-- The canonical complexity enumeration. -/
def complexityEnum : List String := ["Simple", "Medium", "Complex"]

/-- The canonical status enumeration. -/
def statusEnum : List String := ["Released", "In Development", "Planned"]

theorem mapComplexity_mem (v : Option String) :
    mapComplexity v ∈ complexityEnum := by
  unfold mapComplexity complexityEnum
  cases jsNorm v with
  | none => simp
  | some n =>
    by_cases h1 : n ∈ complexitySimpleAliases <;>
      by_cases h2 : n ∈ complexityComplexAliases <;> simp [h1, h2]

theorem mapStatus_mem (v : Option String) :
    mapStatus v ∈ statusEnum := by
  unfold mapStatus statusEnum
  cases jsNorm v with
  | none => simp
  | some n =>
    by_cases h1 : n ∈ statusReleasedAliases <;>
      by_cases h2 : n ∈ statusInDevAliases <;> simp [h1, h2]

/-- A raw record produced by the upload pipelines (the `UploadData`
interface of both upload pages).  The complexity and status fields are
strings: in the TypeScript source they are string-literal unions, and the
`UploadPage` pipeline in fact stores raw cell values in them. -/
structure UploadData where
  towerName : String
  appGroup : String
  componentType : String
  complexity : String
  status : String
  year : Int
  month : Int
  changeType : String
  description : String
deriving DecidableEq, Repr

/-- The `UploadResults` value returned by both upload pipelines. -/
structure UploadResults where
  success : Bool
  fileName : String
  data : List UploadData
  errors : List String
deriving DecidableEq, Repr

/-- A structured-markup (JSON) item: a field map from key to string value,
the boundary form `JSON.parse` hands to the pipeline. -/
def JsonItem := List (String × String)

/-- JavaScript falsy-chained field access `item.k1 || item.k2 || ... || dflt`:
try the candidate keys in order, first key bound to a non-empty value wins. -/
def jsonGet (item : JsonItem) (keys : List String) (dflt : String) : String :=
  match keys with
  | [] => dflt
  | k :: ks =>
      match List.lookup k item with
      | some v => if v = "" then jsonGet item ks dflt else v
      | none => jsonGet item ks dflt

/-- What an uploaded file looks like to the pipeline after the external
parsing libraries have run: the row list PapaParse / XLSX would produce
(cells as strings, header row included), the item list `JSON.parse` would
produce, and the error message of a failed spreadsheet / JSON parse. -/
structure FileContent where
  rows : List (List String)
  jsonItems : List JsonItem
  excelError : Option String := none
  jsonError : Option String := none

/-- One CSV/Excel data row turned into a component by `processFile` of
`frontend/src/pages/UploadPage.tsx` (lines 155-165): raw complexity and
status values are kept, year/month fall back to the current date. -/
def mkRowComponentFE (cy cm : Int) (row : List String) : UploadData :=
  { towerName := jsOr (row.getD 0 "") ""
    appGroup := jsOr (row.getD 1 "") ""
    componentType := jsOr (row.getD 2 "") ""
    complexity := jsOr (row.getD 3 "") "Medium"
    status := jsOr (row.getD 4 "") "Planned"
    year := jsParseIntOr (row.getD 5 "") cy
    month := jsParseIntOr (row.getD 6 "") cm
    changeType := jsOr (row.getD 7 "") "Enhancement"
    description := jsOr (row.getD 8 "") "" }

/-- The required-field truthiness check shared by all pipeline branches:
`component.towerName && component.appGroup && component.componentType`. -/
def requiredOk (c : UploadData) : Bool :=
  c.towerName ≠ "" && c.appGroup ≠ "" && c.componentType ≠ ""

/-- The per-row error message of the `UploadPage` pipeline. -/
def rowErrorFE (idx : Nat) : String :=
  "Row " ++ toString (idx + 2) ++
    ": Missing required fields (Tower Name, App Group, Component Type)"

/-- The data-row loop of the CSV branch of `processFile`
(`frontend/src/pages/UploadPage.tsx` lines 152-174): rows with more than
one cell are validated and pushed onto the data or the error list in file
order; `idx` is the 0-based position within the data rows. -/
def processRowsFE (cy cm : Int) (idx : Nat) :
    List (List String) → List UploadData × List String
  | [] => ([], [])
  | row :: rest =>
      let acc := processRowsFE cy cm (idx + 1) rest
      if row.length > 1 then
        let c := mkRowComponentFE cy cm row
        if requiredOk c then (c :: acc.1, acc.2)
        else (acc.1, rowErrorFE idx :: acc.2)
      else acc

/-- The data-row loop of the Excel branch of `processFile`
(`frontend/src/pages/UploadPage.tsx` lines 200-222); identical to the CSV
loop except that the row guard is `row.length > 0`. -/
def processRowsFEExcel (cy cm : Int) (idx : Nat) :
    List (List String) → List UploadData × List String
  | [] => ([], [])
  | row :: rest =>
      let acc := processRowsFEExcel cy cm (idx + 1) rest
      if row.length > 0 then
        let c := mkRowComponentFE cy cm row
        if requiredOk c then (c :: acc.1, acc.2)
        else (acc.1, rowErrorFE idx :: acc.2)
      else acc

/-- One JSON item turned into a component by the JSON branch of
`processFile` (`frontend/src/pages/UploadPage.tsx` lines 253-263), with
the alias key chains of the source. -/
def mkJsonComponentFE (cy cm : Int) (item : JsonItem) : UploadData :=
  { towerName := jsonGet item ["towerName", "Tower Name", "tower_name"] ""
    appGroup := jsonGet item ["appGroup", "App Group", "app_group"] ""
    componentType :=
      jsonGet item ["componentType", "Component Type", "component_type"] ""
    complexity := jsonGet item ["complexity", "Complexity"] "Medium"
    status := jsonGet item ["status", "Status"] "Planned"
    year := jsParseIntOr (jsonGet item ["year", "Year"] "") cy
    month := jsParseIntOr (jsonGet item ["month", "Month"] "") cm
    changeType :=
      jsonGet item ["changeType", "Change Type", "change_type"] "Enhancement"
    description := jsonGet item ["description", "Description"] "" }

/-- The per-item error message of the `UploadPage` JSON branch. -/
def itemErrorFE (idx : Nat) : String :=
  "Item " ++ toString (idx + 1) ++
    ": Missing required fields (Tower Name, App Group, Component Type)"

/-- The item loop of the JSON branch of `processFile`
(`frontend/src/pages/UploadPage.tsx` lines 251-271): every item is
validated, there is no row guard. -/
def processItemsFE (cy cm : Int) (idx : Nat) :
    List JsonItem → List UploadData × List String
  | [] => ([], [])
  | item :: rest =>
      let acc := processItemsFE cy cm (idx + 1) rest
      let c := mkJsonComponentFE cy cm item
      if requiredOk c then (c :: acc.1, acc.2)
      else (acc.1, itemErrorFE idx :: acc.2)

/-- JavaScript `file.name.split('.').pop()?.toLowerCase()`: the text after
the last dot (the whole name when there is no dot), lower-cased. -/
def fileExt (name : String) : String :=
  jsToLower ((jsSplit name '.').getLastD "")

/-- The `processFile` pipeline of `frontend/src/pages/UploadPage.tsx`
(lines 141-298): dispatch on the file extension, process the branch, and
report `success` exactly when the accepted-data list is non-empty; an
unrecognized extension yields the single unsupported-file error. -/
def processFileFE (cy cm : Int) (name : String) (content : FileContent) :
    UploadResults :=
  let ft := fileExt name
  if ft = "csv" then
    let acc := processRowsFE cy cm 0 (content.rows.drop 1)
    { success := acc.1.length > 0, fileName := name,
      data := acc.1, errors := acc.2 }
  else if ft = "xlsx" ∨ ft = "xls" then
    match content.excelError with
    | some m =>
        { success := false, fileName := name, data := [],
          errors := ["Failed to parse Excel file: " ++ m] }
    | none =>
        let acc := processRowsFEExcel cy cm 0 (content.rows.drop 1)
        { success := acc.1.length > 0, fileName := name,
          data := acc.1, errors := acc.2 }
  else if ft = "json" then
    match content.jsonError with
    | some m =>
        { success := false, fileName := name, data := [],
          errors := ["Failed to parse JSON file: " ++ m] }
    | none =>
        let acc := processItemsFE cy cm 0 content.jsonItems
        { success := acc.1.length > 0, fileName := name,
          data := acc.1, errors := acc.2 }
  else
    { success := false, fileName := name, data := [],
      errors := ["Unsupported file type. Please upload CSV, Excel, or JSON files."] }

/-- One CSV data row turned into a component by `processUploadFile` of
`src/pages/ViewAllPage.tsx` (lines 227-240): this legacy pipeline runs the
field normalizers on the raw complexity and status cells. -/
def mkRowComponentVA (cy cm : Int) (row : List String) : UploadData :=
  { towerName := jsOr (row.getD 0 "") ""
    appGroup := jsOr (row.getD 1 "") ""
    componentType := jsOr (row.getD 2 "") ""
    complexity := mapComplexity (some (jsOr (row.getD 3 "") "Medium"))
    status := mapStatus (some (jsOr (row.getD 4 "") "Planned"))
    year := jsParseIntOr (row.getD 5 "") cy
    month := jsParseIntOr (row.getD 6 "") cm
    changeType := jsOr (row.getD 7 "") "Enhancement"
    description := jsOr (row.getD 8 "") "" }

/-- The per-row error message of the legacy `ViewAllPage` pipeline
(`src/pages/ViewAllPage.tsx` line 243). -/
def rowErrorVA (idx : Nat) : String :=
  "Row " ++ toString (idx + 2) ++ ": Missing required fields"

/-- The data-row loop of the CSV branch of `processUploadFile`
(`src/pages/ViewAllPage.tsx` lines 225-248). -/
def processRowsVA (cy cm : Int) (idx : Nat) :
    List (List String) → List UploadData × List String
  | [] => ([], [])
  | row :: rest =>
      let acc := processRowsVA cy cm (idx + 1) rest
      if row.length > 1 then
        let c := mkRowComponentVA cy cm row
        if requiredOk c then (c :: acc.1, acc.2)
        else (acc.1, rowErrorVA idx :: acc.2)
      else acc

/-- One JSON item turned into a component by the JSON branch of
`processUploadFile` (`src/pages/ViewAllPage.tsx` lines 265-279), with
normalization applied. -/
def mkJsonComponentVA (cy cm : Int) (item : JsonItem) : UploadData :=
  { towerName := jsonGet item ["towerName", "Tower Name", "tower_name"] ""
    appGroup := jsonGet item ["appGroup", "App Group", "app_group"] ""
    componentType :=
      jsonGet item ["componentType", "Component Type", "component_type"] ""
    complexity := mapComplexity (some (jsonGet item ["complexity", "Complexity"] "Medium"))
    status := mapStatus (some (jsonGet item ["status", "Status"] "Planned"))
    year := jsParseIntOr (jsonGet item ["year", "Year"] "") cy
    month := jsParseIntOr (jsonGet item ["month", "Month"] "") cm
    changeType :=
      jsonGet item ["changeType", "Change Type", "change_type"] "Enhancement"
    description := jsonGet item ["description", "Description"] "" }

/-- The per-item error message of the legacy `ViewAllPage` JSON branch. -/
def itemErrorVA (idx : Nat) : String :=
  "Item " ++ toString (idx + 1) ++ ": Missing required fields"

/-- The item loop of the JSON branch of `processUploadFile`
(`src/pages/ViewAllPage.tsx` lines 265-286). -/
def processItemsVA (cy cm : Int) (idx : Nat) :
    List JsonItem → List UploadData × List String
  | [] => ([], [])
  | item :: rest =>
      let acc := processItemsVA cy cm (idx + 1) rest
      let c := mkJsonComponentVA cy cm item
      if requiredOk c then (c :: acc.1, acc.2)
      else (acc.1, itemErrorVA idx :: acc.2)

/-- The `processUploadFile` pipeline of `src/pages/ViewAllPage.tsx`
(lines 214-298): only CSV and JSON are recognized, and `success` is
reported exactly when the error list is empty (`errors.length === 0`). -/
def processUploadFileVA (cy cm : Int) (name : String) (content : FileContent) :
    UploadResults :=
  let ft := fileExt name
  if ft = "csv" then
    let acc := processRowsVA cy cm 0 (content.rows.drop 1)
    { success := acc.2.isEmpty, fileName := name,
      data := acc.1, errors := acc.2 }
  else if ft = "json" then
    match content.jsonError with
    | some m =>
        { success := false, fileName := name, data := [],
          errors := ["Failed to parse JSON: " ++ m] }
    | none =>
        let acc := processItemsVA cy cm 0 content.jsonItems
        { success := acc.2.isEmpty, fileName := name,
          data := acc.1, errors := acc.2 }
  else
    { success := false, fileName := name, data := [],
      errors := ["Unsupported file type. Please upload CSV or JSON files."] }

/-- The `Component` entity of `frontend/src/services/api.ts` (the
client-side store element).  `description` is accessed with optional
chaining in the filter, so it is modelled as optional. -/
structure ApiComponent where
  id : Option Int
  componentId : String
  name : String
  version : String
  description : Option String
  tower : String
  status : String
  complexity : String
  owner : String
  releaseDate : Option String
  lastUpdated : Option String
  createdAt : Option String
deriving DecidableEq, Repr

/-- The `saveToDatabase` step of `frontend/src/pages/UploadPage.tsx`
(lines 337-345): when there is no upload result or the result is
unsuccessful it returns at once, performing no backend request; otherwise
it hands the result to the backend upload call (the higher-order
parameter `upload`, external to this repository). -/
def saveToDatabase (upload : UploadResults → List ApiComponent → List ApiComponent)
    (results : Option UploadResults) (store : List ApiComponent) :
    List ApiComponent :=
  match results with
  | none => store
  | some r => if r.success then upload r store else store

/-- The `Component` entity of `src/types` used by the legacy
`ViewAllPage`. -/
structure ComponentVA where
  id : String
  towerName : String
  appGroup : String
  componentType : String
  complexity : String
  status : String
  year : Int
  month : Int
  changeType : String
  description : String
  createdAt : String
  updatedAt : String
deriving DecidableEq, Repr

/-- An accepted record turned into a stored component by `handleUpload` of
`src/pages/ViewAllPage.tsx` (lines 308-321); the fresh id and timestamps
come from the environment. -/
def mkComponentVA (newId now : String) (item : UploadData) : ComponentVA :=
  { id := newId, towerName := item.towerName, appGroup := item.appGroup
    componentType := item.componentType, complexity := item.complexity
    status := item.status, year := item.year, month := item.month
    changeType := item.changeType, description := jsOr item.description ""
    createdAt := now, updatedAt := now }

/-- The store mutation of `handleUpload` in `src/pages/ViewAllPage.tsx`
(lines 306-325): only when the result is successful and carries at least
one record are the new components prepended to the local list. -/
def handleUploadVA (mkId : Nat → String) (now : String) (r : UploadResults)
    (store : List ComponentVA) : List ComponentVA :=
  if r.success && r.data.length > 0 then
    (r.data.enum.map (fun p => mkComponentVA (mkId p.1) now p.2)) ++ store
  else store

/-- The per-component filter predicate of `filteredAndSortedComponents` in
`frontend/src/pages/ViewAllPage.tsx` (lines 60-71): free-text search over
name and description (case-insensitive substring), and equality filters
for tower, status and complexity; an empty parameter matches everything,
and the four conditions are combined conjunctively. -/
def matchesFiltersFE (searchTerm selectedTower selectedStatus selectedComplexity : String)
    (c : ApiComponent) : Bool :=
  let matchesSearch := searchTerm = "" ||
    jsIncludes (jsToLower c.name) (jsToLower searchTerm) ||
    ((c.description.map (fun d => jsIncludes (jsToLower d) (jsToLower searchTerm))).getD false)
  let matchesTower := selectedTower = "" || c.tower = selectedTower
  let matchesStatus := selectedStatus = "" || c.status = selectedStatus
  let matchesComplexity := selectedComplexity = "" || c.complexity = selectedComplexity
  matchesSearch && matchesTower && matchesStatus && matchesComplexity

/-- The filtering stage of `filteredAndSortedComponents`
(`frontend/src/pages/ViewAllPage.tsx` lines 60-71). -/
def filteredComponentsFE (searchTerm selectedTower selectedStatus selectedComplexity : String)
    (comps : List ApiComponent) : List ApiComponent :=
  comps.filter (matchesFiltersFE searchTerm selectedTower selectedStatus selectedComplexity)

/-- Outcome of a backend API call as seen by the data context: a success
response, a failure response, or a thrown error. -/
inductive ApiOutcome where
  | ok
  | fail (msg : String)
  | exn (msg : String)
deriving DecidableEq, Repr

/-- The `deleteComponent` action of the data context
(`src/unnamed/part_005` lines 82-97): on a success response the list is
replaced by `prev.filter(comp => comp.id !== id)` and the call returns
`true`; on a failure response or a thrown error the list is untouched and
the call returns `false`. -/
def deleteComponentStep (outcome : ApiOutcome) (id : Int)
    (comps : List ApiComponent) : Bool × List ApiComponent :=
  match outcome with
  | .ok => (true, comps.filter (fun c => c.id ≠ some id))
  | .fail _ => (false, comps)
  | .exn _ => (false, comps)

/-- Month-name abbreviations, as in `getMonthName` of the search page. -/
def monthAbbrevs : List String :=
  ["Jan", "Feb", "Mar", "Apr", "May", "Jun",
   "Jul", "Aug", "Sep", "Oct", "Nov", "Dec"]

/-- Year component of an ISO `releaseDate` string. -/
def releaseYearStr (c : ApiComponent) : String :=
  (jsSplit (c.releaseDate.getD "") '-').getD 0 ""

/-- Month component of an ISO `releaseDate` string, as a number. -/
def releaseMonthNat (c : ApiComponent) : Option Nat :=
  (jsParseInt ((jsSplit (c.releaseDate.getD "") '-').getD 1 "")).map Int.toNat

/-- Modelled from the spec: the free-text search behaviour the List/Search
interface promises — case-insensitive match against name and description,
plus a bare 4-digit token matching the release year, a bare 1-2 digit
token (1-12) matching the release month, and a month-name abbreviation
matching the release month.  Written from the spec's words, to be compared
with the filter the code implements. -/
def specSearchMatch (term : String) (c : ApiComponent) : Bool :=
  let t := jsTrim term
  (term = "") ||
  jsIncludes (jsToLower c.name) (jsToLower term) ||
  ((c.description.map (fun d => jsIncludes (jsToLower d) (jsToLower term))).getD false) ||
  (t.length = 4 && t.data.all Char.isDigit && releaseYearStr c = t) ||
  (1 ≤ t.length && t.length ≤ 2 && t.data.all Char.isDigit &&
    (match jsParseInt t with
     | some n => 1 ≤ n && n ≤ 12 && releaseMonthNat c = some n.toNat
     | none => false)) ||
  ((monthAbbrevs.map jsToLower).contains (jsToLower t) &&
    (match releaseMonthNat c with
     | some m => jsToLower (monthAbbrevs.getD (m - 1) "") = jsToLower t
     | none => false))

/-- Modelled from the spec: the whole conjunctive filter the claim
describes, with `specSearchMatch` as its free-text component. -/
def specMatchAll (term tower status complexity : String) (c : ApiComponent) : Bool :=
  specSearchMatch term c &&
  (tower = "" || c.tower = tower) &&
  (status = "" || c.status = status) &&
  (complexity = "" || c.complexity = complexity)

theorem simple_alias_not_complex {s : String}
    (h : s ∈ complexitySimpleAliases) : s ∉ complexityComplexAliases := by
  simp only [complexitySimpleAliases, List.mem_cons, List.not_mem_nil,
    or_false] at h
  rcases h with rfl | rfl | rfl | rfl <;> decide

theorem released_alias_not_indev {s : String}
    (h : s ∈ statusReleasedAliases) : s ∉ statusInDevAliases := by
  simp only [statusReleasedAliases, List.mem_cons, List.not_mem_nil,
    or_false] at h
  rcases h with rfl | rfl | rfl | rfl | rfl | rfl <;> decide

/-- C1: for every input string (present or absent), `mapComplexity`
lower-cases and trims it and returns `Simple` exactly on the Simple
aliases, `Complex` exactly on the Complex aliases, and the default
`Medium` on every other input; `mapStatus` likewise returns `Released`
exactly on its alias set (which contains `released`/`live`/`production`/
`deployed`), `In Development` exactly on its alias set (which contains
`in development`/`dev`/`in progress`), and the default `Planned` on every
other input. -/
theorem mapComplexity_mapStatus_alias_table (v : Option String) :
    (mapComplexity v = "Simple" ↔
      ∃ s, jsNorm v = some s ∧ s ∈ complexitySimpleAliases) ∧
    (mapComplexity v = "Complex" ↔
      ∃ s, jsNorm v = some s ∧ s ∈ complexityComplexAliases) ∧
    (mapComplexity v = "Medium" ↔
      ∀ s, jsNorm v = some s →
        s ∉ complexitySimpleAliases ∧ s ∉ complexityComplexAliases) ∧
    (mapStatus v = "Released" ↔
      ∃ s, jsNorm v = some s ∧ s ∈ statusReleasedAliases) ∧
    (mapStatus v = "In Development" ↔
      ∃ s, jsNorm v = some s ∧ s ∈ statusInDevAliases) ∧
    (mapStatus v = "Planned" ↔
      ∀ s, jsNorm v = some s →
        s ∉ statusReleasedAliases ∧ s ∉ statusInDevAliases) := by
  unfold mapComplexity mapStatus
  cases hn : jsNorm v with
  | none => simp
  | some n =>
      by_cases h1 : n ∈ complexitySimpleAliases <;>
        by_cases h2 : n ∈ complexityComplexAliases <;>
        by_cases h3 : n ∈ statusReleasedAliases <;>
        by_cases h4 : n ∈ statusInDevAliases <;>
        simp_all [simple_alias_not_complex, released_alias_not_indev]

/-- C8: normalization is total — both normalizers return an enumeration
member for every input, absent included — and idempotent: on a value that
is already canonical each normalizer is the identity, and hence composing
a normalizer with itself changes nothing. -/
theorem normalize_total_idempotent (v : Option String) :
    mapComplexity v ∈ complexityEnum ∧
    mapStatus v ∈ statusEnum ∧
    (∀ s ∈ complexityEnum, mapComplexity (some s) = s) ∧
    (∀ s ∈ statusEnum, mapStatus (some s) = s) ∧
    mapComplexity (some (mapComplexity v)) = mapComplexity v ∧
    mapStatus (some (mapStatus v)) = mapStatus v := by
  have hc : ∀ s ∈ complexityEnum, mapComplexity (some s) = s := by
    intro s hs
    simp only [complexityEnum, List.mem_cons, List.not_mem_nil, or_false] at hs
    rcases hs with rfl | rfl | rfl <;> decide
  have hst : ∀ s ∈ statusEnum, mapStatus (some s) = s := by
    intro s hs
    simp only [statusEnum, List.mem_cons, List.not_mem_nil, or_false] at hs
    rcases hs with rfl | rfl | rfl <;> decide
  exact ⟨mapComplexity_mem v, mapStatus_mem v, hc, hst,
    hc _ (mapComplexity_mem v), hst _ (mapStatus_mem v)⟩

/-- The delimited-text file of the spec's Scenario A: a header row and the
two data rows given there. -/
def scenarioARows : List (List String) :=
  [["Tower Name", "App Group", "Component Type", "Complexity", "Status",
    "Year", "Month", "Change Type", "Description"],
   ["Security", "CoreBanking", "Auth Module", "low", "live", "2024", "3",
    "Enhancement", "desc"],
   ["", "AppGroup", "Type", "Medium", "Planned", "2024", "1", "", "x"]]

/-- Scenario A as pipeline input. -/
def scenarioAContent : FileContent := ⟨scenarioARows, [], none, none⟩

/-- A delimited-text file with a header row and no data rows. -/
def headerOnlyContent : FileContent := ⟨[["h1", "h2"]], [], none, none⟩

/-- C2 counterexample: on Scenario A's file, the legacy `ViewAllPage`
pipeline accepts one record yet reports `success = false` — success there
means an empty error list, not at least one usable record. -/
theorem upload_success_counterexample :
    (processUploadFileVA 2025 10 "a.csv" scenarioAContent).data.length = 1 ∧
    (processUploadFileVA 2025 10 "a.csv" scenarioAContent).success = false := by
  decide

/-- C2 amended: the `UploadPage` pipeline reports `success = true` exactly
when at least one record passed validation; the legacy `ViewAllPage`
pipeline instead reports `success = true` exactly when the error list is
empty. -/
theorem upload_success_semantics (cy cm : Int) (name : String)
    (content : FileContent) :
    ((processFileFE cy cm name content).success = true ↔
      (processFileFE cy cm name content).data ≠ []) ∧
    ((processUploadFileVA cy cm name content).success = true ↔
      (processUploadFileVA cy cm name content).errors = []) := by
  refine ⟨?_, ?_⟩
  · by_cases h1 : fileExt name = "csv"
    · simp [processFileFE, h1, List.length_pos]
    · by_cases h2 : fileExt name = "xlsx" ∨ fileExt name = "xls"
      · cases hx : content.excelError <;>
          simp [processFileFE, h1, h2, hx, List.length_pos]
      · by_cases h3 : fileExt name = "json"
        · cases hj : content.jsonError <;>
            simp [processFileFE, h1, h2, h3, hj, List.length_pos]
        · simp [processFileFE, h1, h2, h3]
  · by_cases h1 : fileExt name = "csv"
    · simp [processUploadFileVA, h1, List.isEmpty_iff]
    · by_cases h3 : fileExt name = "json"
      · cases hj : content.jsonError <;>
          simp [processUploadFileVA, h1, h3, hj, List.isEmpty_iff]
      · simp [processUploadFileVA, h1, h3]

theorem processRowsFE_length (cy cm : Int) (idx : Nat)
    (rows : List (List String)) :
    (processRowsFE cy cm idx rows).1.length +
      (processRowsFE cy cm idx rows).2.length
      = (rows.filter (fun r => r.length > 1)).length := by
  induction rows generalizing idx with
  | nil => simp [processRowsFE]
  | cons row rest ih =>
      simp only [processRowsFE, List.filter_cons]
      by_cases h : row.length > 1
      · by_cases hr : requiredOk (mkRowComponentFE cy cm row) <;>
          · simp [h, hr]
            have := ih (idx + 1)
            simp only [gt_iff_lt] at this ⊢
            omega
      · simp [h]
        exact ih (idx + 1)

theorem processRowsFEExcel_length (cy cm : Int) (idx : Nat)
    (rows : List (List String)) :
    (processRowsFEExcel cy cm idx rows).1.length +
      (processRowsFEExcel cy cm idx rows).2.length
      = (rows.filter (fun r => r.length > 0)).length := by
  induction rows generalizing idx with
  | nil => simp [processRowsFEExcel]
  | cons row rest ih =>
      simp only [processRowsFEExcel, List.filter_cons]
      by_cases h : row.length > 0
      · by_cases hr : requiredOk (mkRowComponentFE cy cm row) <;>
          · simp [h, hr]
            have := ih (idx + 1)
            simp only [gt_iff_lt] at this ⊢
            omega
      · simp [h]
        exact ih (idx + 1)

theorem processItemsFE_length (cy cm : Int) (idx : Nat)
    (items : List JsonItem) :
    (processItemsFE cy cm idx items).1.length +
      (processItemsFE cy cm idx items).2.length = items.length := by
  induction items generalizing idx with
  | nil => simp [processItemsFE]
  | cons item rest ih =>
      simp only [processItemsFE, List.length_cons]
      by_cases hr : requiredOk (mkJsonComponentFE cy cm item) <;>
        · simp [hr]
          have := ih (idx + 1)
          omega

theorem processRowsVA_length (cy cm : Int) (idx : Nat)
    (rows : List (List String)) :
    (processRowsVA cy cm idx rows).1.length +
      (processRowsVA cy cm idx rows).2.length
      = (rows.filter (fun r => r.length > 1)).length := by
  induction rows generalizing idx with
  | nil => simp [processRowsVA]
  | cons row rest ih =>
      simp only [processRowsVA, List.filter_cons]
      by_cases h : row.length > 1
      · by_cases hr : requiredOk (mkRowComponentVA cy cm row) <;>
          · simp [h, hr]
            have := ih (idx + 1)
            simp only [gt_iff_lt] at this ⊢
            omega
      · simp [h]
        exact ih (idx + 1)

theorem processItemsVA_length (cy cm : Int) (idx : Nat)
    (items : List JsonItem) :
    (processItemsVA cy cm idx items).1.length +
      (processItemsVA cy cm idx items).2.length = items.length := by
  induction items generalizing idx with
  | nil => simp [processItemsVA]
  | cons item rest ih =>
      simp only [processItemsVA, List.length_cons]
      by_cases hr : requiredOk (mkJsonComponentVA cy cm item) <;>
        · simp [hr]
          have := ih (idx + 1)
          omega

/-- A delimited-text file whose only data row has a single cell; such a
row fails the `row.length > 1` guard and is silently skipped. -/
def singleCellContent : FileContent := ⟨[["h1", "h2"], ["x"]], [], none, none⟩

/-- C3 counterexample: a data row with one cell lands in neither output
list, so accepted records plus errors (0) differ from the raw data rows
extracted from the file (1). -/
theorem batch_accounting_counterexample :
    (processFileFE 2025 10 "t.csv" singleCellContent).data.length +
      (processFileFE 2025 10 "t.csv" singleCellContent).errors.length = 0 ∧
    (singleCellContent.rows.drop 1).length = 1 := by
  decide

/-- C3 amended: in every pipeline branch, accepted records plus per-row
errors account exactly for the raw records that pass the branch's row
guard — every data row with more than one cell (CSV), every non-empty row
(Excel), and every JSON item; rows failing the guard are silently
dropped. -/
theorem batch_accounting (cy cm : Int) (idx : Nat)
    (rows : List (List String)) (items : List JsonItem) :
    ((processRowsFE cy cm idx rows).1.length +
        (processRowsFE cy cm idx rows).2.length
      = (rows.filter (fun r => r.length > 1)).length) ∧
    ((processRowsFEExcel cy cm idx rows).1.length +
        (processRowsFEExcel cy cm idx rows).2.length
      = (rows.filter (fun r => r.length > 0)).length) ∧
    ((processItemsFE cy cm idx items).1.length +
        (processItemsFE cy cm idx items).2.length = items.length) ∧
    ((processRowsVA cy cm idx rows).1.length +
        (processRowsVA cy cm idx rows).2.length
      = (rows.filter (fun r => r.length > 1)).length) ∧
    ((processItemsVA cy cm idx items).1.length +
        (processItemsVA cy cm idx items).2.length = items.length) :=
  ⟨processRowsFE_length cy cm idx rows,
   processRowsFEExcel_length cy cm idx rows,
   processItemsFE_length cy cm idx items,
   processRowsVA_length cy cm idx rows,
   processItemsVA_length cy cm idx items⟩

/-- C4: for every file whose extension is not csv, xlsx, xls or json, the
`UploadPage` pipeline returns `success = false`, an empty record list and
exactly the one unsupported-file-type error, and the save-to-database
step leaves the store untouched on such a result. -/
theorem unsupported_extension (cy cm : Int) (name : String)
    (content : FileContent)
    (h : fileExt name ∉ ["csv", "xlsx", "xls", "json"]) :
    processFileFE cy cm name content =
      { success := false, fileName := name, data := [],
        errors := ["Unsupported file type. Please upload CSV, Excel, or JSON files."] } ∧
    ∀ up store,
      saveToDatabase up (some (processFileFE cy cm name content)) store = store := by
  simp only [List.mem_cons, List.not_mem_nil, or_false, not_or] at h
  obtain ⟨h1, h2, h3, h4⟩ := h
  have hres : processFileFE cy cm name content =
      { success := false, fileName := name, data := [],
        errors := ["Unsupported file type. Please upload CSV, Excel, or JSON files."] } := by
    simp [processFileFE, h1, h2, h3, h4]
  refine ⟨hres, fun up store => ?_⟩
  rw [hres]
  simp [saveToDatabase]

/-- Witness for C4 at the spec's Scenario B input, a `.txt` file. -/
theorem unsupported_extension_witness :
    processFileFE 2025 10 "data.txt" ⟨[], [], none, none⟩ =
      { success := false, fileName := "data.txt", data := [],
        errors := ["Unsupported file type. Please upload CSV, Excel, or JSON files."] } ∧
    saveToDatabase (fun _ s => s)
      (some (processFileFE 2025 10 "data.txt" ⟨[], [], none, none⟩)) [] = [] := by
  have h := unsupported_extension 2025 10 "data.txt" ⟨[], [], none, none⟩ (by decide)
  exact ⟨h.1, h.2 (fun _ s => s) []⟩

/-- C5 counterexample: on a header-only delimited-text file the legacy
`ViewAllPage` pipeline reports `success = true` (its error list is empty),
not the claimed `success = false`. -/
theorem header_only_counterexample :
    (processUploadFileVA 2025 10 "h.csv" headerOnlyContent).success = true := by
  decide

/-- C5 amended: on a header-only delimited-text file the `UploadPage`
pipeline yields `success = false` with zero records, and its
save-to-database step performs no store mutation; the legacy `ViewAllPage`
pipeline reports `success = true` on such a file, but its store-mutation
step likewise leaves the component list unchanged because zero records
were parsed. -/
theorem header_only_upload (cy cm : Int) (name : String)
    (header : List String)
    (up : UploadResults → List ApiComponent → List ApiComponent)
    (store : List ApiComponent) (mkId : Nat → String) (now : String)
    (storeVA : List ComponentVA)
    (h : fileExt name = "csv") :
    (processFileFE cy cm name ⟨[header], [], none, none⟩).success = false ∧
    (processFileFE cy cm name ⟨[header], [], none, none⟩).data = [] ∧
    saveToDatabase up
      (some (processFileFE cy cm name ⟨[header], [], none, none⟩)) store
      = store ∧
    (processUploadFileVA cy cm name ⟨[header], [], none, none⟩).data = [] ∧
    handleUploadVA mkId now
      (processUploadFileVA cy cm name ⟨[header], [], none, none⟩) storeVA
      = storeVA := by
  have hfe : processFileFE cy cm name ⟨[header], [], none, none⟩ =
      { success := false, fileName := name, data := [], errors := [] } := by
    simp [processFileFE, h, processRowsFE]
  have hva : processUploadFileVA cy cm name ⟨[header], [], none, none⟩ =
      { success := true, fileName := name, data := [], errors := [] } := by
    simp [processUploadFileVA, h, processRowsVA]
  rw [hfe, hva]
  simp [saveToDatabase, handleUploadVA]

/-- Witness for C5 at a concrete header-only file. -/
theorem header_only_upload_witness :
    (processFileFE 2025 10 "h.csv" ⟨[["h1", "h2"]], [], none, none⟩).success
      = false ∧
    (processFileFE 2025 10 "h.csv" ⟨[["h1", "h2"]], [], none, none⟩).data
      = [] ∧
    saveToDatabase (fun _ s => s)
      (some (processFileFE 2025 10 "h.csv" ⟨[["h1", "h2"]], [], none, none⟩))
      [] = [] ∧
    (processUploadFileVA 2025 10 "h.csv" ⟨[["h1", "h2"]], [], none, none⟩).data
      = [] ∧
    handleUploadVA (fun _ => "id") "now"
      (processUploadFileVA 2025 10 "h.csv" ⟨[["h1", "h2"]], [], none, none⟩)
      [] = [] :=
  header_only_upload 2025 10 "h.csv" ["h1", "h2"] (fun _ s => s) []
    (fun _ => "id") "now" [] (by decide)

/-- C6 counterexample: on Scenario A's file (header plus the two given
data rows) the single validation error of the legacy pipeline reads
`Row 3: Missing required fields` — it references spreadsheet row 3, not
row 2 as claimed. -/
theorem row_index_counterexample :
    (processUploadFileVA 2025 10 "a.csv" scenarioAContent).errors
      = ["Row 3: Missing required fields"] ∧
    "Row 3: Missing required fields" ≠ "Row 2: Missing required fields" := by
  decide

/-- C6 amended: a data row at 0-based position `i` that passes the row
guard but misses a required field contributes the error
`Row (i+2): Missing required fields` — the spreadsheet row number,
counting the header as row 1 — and processing continues: the error and
data lists are exactly the filtered projections of the whole enumerated
row list.  On Scenario A's file the second data row is therefore reported
as row 3, alongside the one accepted record. -/
theorem row_error_indexing (cy cm : Int) (idx : Nat)
    (rows : List (List String)) :
    ((processRowsVA cy cm idx rows).2
      = (rows.enumFrom idx).filterMap (fun p =>
          if p.2.length > 1 && !requiredOk (mkRowComponentVA cy cm p.2)
          then some (rowErrorVA p.1) else none)) ∧
    ((processRowsVA cy cm idx rows).1
      = (rows.enumFrom idx).filterMap (fun p =>
          if p.2.length > 1 && requiredOk (mkRowComponentVA cy cm p.2)
          then some (mkRowComponentVA cy cm p.2) else none)) ∧
    (processUploadFileVA 2025 10 "a.csv" scenarioAContent).errors
      = [rowErrorVA 1] ∧
    rowErrorVA 1 = "Row 3: Missing required fields" ∧
    (processUploadFileVA 2025 10 "a.csv" scenarioAContent).data.length = 1 := by
  refine ⟨?_, ?_, by decide, by decide, by decide⟩
  · induction rows generalizing idx with
    | nil => simp [processRowsVA]
    | cons row rest ih =>
        simp only [processRowsVA, List.enumFrom, List.filterMap_cons]
        by_cases h : row.length > 1
        · by_cases hr : requiredOk (mkRowComponentVA cy cm row) <;>
            simp [h, hr, ih (idx + 1)]
        · simp [h, ih (idx + 1)]
  · induction rows generalizing idx with
    | nil => simp [processRowsVA]
    | cons row rest ih =>
        simp only [processRowsVA, List.enumFrom, List.filterMap_cons]
        by_cases h : row.length > 1
        · by_cases hr : requiredOk (mkRowComponentVA cy cm row) <;>
            simp [h, hr, ih (idx + 1)]
        · simp [h, ih (idx + 1)]

/-- A delimited-text file whose data row carries free-text complexity and
status values. -/
def unnormalizedContent : FileContent :=
  ⟨[["h1", "h2"],
    ["T", "A", "C", "weird", "strange", "2024", "3", "", ""]], [], none, none⟩

/-- C7 counterexample: the `UploadPage` pipeline accepts a record whose
complexity is the raw cell text `weird` and whose status is `strange`,
neither a member of its enumeration — normalization is deferred to the
backend and does not hold of the accepted records themselves. -/
theorem enum_invariant_counterexample :
    (processFileFE 2025 10 "w.csv" unnormalizedContent).data.map
      UploadData.complexity = ["weird"] ∧
    "weird" ∉ complexityEnum ∧
    (processFileFE 2025 10 "w.csv" unnormalizedContent).data.map
      UploadData.status = ["strange"] ∧
    "strange" ∉ statusEnum ∧
    (processFileFE 2025 10 "w.csv" unnormalizedContent).success = true := by
  decide

theorem processRowsVA_data_enum (cy cm : Int) (idx : Nat)
    (rows : List (List String)) :
    ∀ c ∈ (processRowsVA cy cm idx rows).1,
      c.complexity ∈ complexityEnum ∧ c.status ∈ statusEnum := by
  induction rows generalizing idx with
  | nil => simp [processRowsVA]
  | cons row rest ih =>
      intro c hc
      simp only [processRowsVA] at hc
      by_cases h : row.length > 1
      · by_cases hr : requiredOk (mkRowComponentVA cy cm row)
        · rw [if_pos h, if_pos hr] at hc
          rcases List.mem_cons.mp hc with rfl | hc
          · refine ⟨?_, ?_⟩ <;>
              · simp only [mkRowComponentVA]
                first
                | exact mapComplexity_mem _
                | exact mapStatus_mem _
          · exact ih (idx + 1) c hc
        · rw [if_pos h, if_neg hr] at hc
          exact ih (idx + 1) c hc
      · rw [if_neg h] at hc
        exact ih (idx + 1) c hc

theorem processItemsVA_data_enum (cy cm : Int) (idx : Nat)
    (items : List JsonItem) :
    ∀ c ∈ (processItemsVA cy cm idx items).1,
      c.complexity ∈ complexityEnum ∧ c.status ∈ statusEnum := by
  induction items generalizing idx with
  | nil => simp [processItemsVA]
  | cons item rest ih =>
      intro c hc
      simp only [processItemsVA] at hc
      by_cases hr : requiredOk (mkJsonComponentVA cy cm item)
      · rw [if_pos hr] at hc
        rcases List.mem_cons.mp hc with rfl | hc
        · refine ⟨?_, ?_⟩ <;>
            · simp only [mkJsonComponentVA]
              first
              | exact mapComplexity_mem _
              | exact mapStatus_mem _
        · exact ih (idx + 1) c hc
      · rw [if_neg hr] at hc
        exact ih (idx + 1) c hc

/-- C7 amended: in the legacy `ViewAllPage` pipeline — the one that runs
the field normalizers — every accepted record's complexity is a member of
{Simple, Medium, Complex} and its status a member of
{Released, In Development, Planned}, for every uploaded file and every
row; the `UploadPage` pipeline does not establish this invariant
client-side (see the counterexample), deferring normalization to the
backend. -/
theorem normalized_records_in_enum (cy cm : Int) (name : String)
    (content : FileContent) (c : UploadData)
    (hc : c ∈ (processUploadFileVA cy cm name content).data) :
    c.complexity ∈ complexityEnum ∧ c.status ∈ statusEnum := by
  by_cases h1 : fileExt name = "csv"
  · simp only [processUploadFileVA, h1, if_true] at hc
    exact processRowsVA_data_enum cy cm 0 _ c hc
  · by_cases h2 : fileExt name = "json"
    · cases hj : content.jsonError with
      | some m => simp [processUploadFileVA, h1, h2, hj] at hc
      | none =>
          simp only [processUploadFileVA, h1, h2, hj, if_false, if_true] at hc
          exact processItemsVA_data_enum cy cm 0 _ c hc
    · simp [processUploadFileVA, h1, h2] at hc

/-- The record Scenario A's valid row produces in the legacy pipeline. -/
def scenarioARecord : UploadData :=
  { towerName := "Security", appGroup := "CoreBanking",
    componentType := "Auth Module", complexity := "Simple",
    status := "Released", year := 2024, month := 3,
    changeType := "Enhancement", description := "desc" }

/-- Witness for C7 at Scenario A's accepted record. -/
theorem normalized_records_in_enum_witness :
    scenarioARecord.complexity ∈ complexityEnum ∧
    scenarioARecord.status ∈ statusEnum :=
  normalized_records_in_enum 2025 10 "a.csv" scenarioAContent scenarioARecord
    (by decide)

/-- A component released in March 2024 whose name and description do not
contain the digits `2024`. -/
def yearSearchComponent : ApiComponent :=
  { id := some 1, componentId := "C-1", name := "Auth Module",
    version := "1.0", description := none, tower := "Security",
    status := "Released", complexity := "Simple", owner := "Platform",
    releaseDate := some "2024-03-01", lastUpdated := none,
    createdAt := none }

/-- C9 counterexample: the spec-modelled search predicate accepts the bare
4-digit token `2024` against this component's release year, but the
implemented filter of `filteredAndSortedComponents` excludes the component
— the code matches free text against name and description only, with no
year or month token handling. -/
theorem search_filter_counterexample :
    specMatchAll "2024" "" "" "" yearSearchComponent = true ∧
    yearSearchComponent ∉
      filteredComponentsFE "2024" "" "" "" [yearSearchComponent] := by
  decide

/-- C9 amended: a component is included in the filtered result exactly
when it matches the free-text search AND the tower filter AND the status
filter AND the complexity filter, an absent/empty filter matching every
component — but the free-text search matches case-insensitively against
name and description only; a bare year or month token receives no special
treatment in this filter. -/
theorem filter_conjunctive (term t s cx : String)
    (comps : List ApiComponent) (c : ApiComponent) :
    c ∈ filteredComponentsFE term t s cx comps ↔
      c ∈ comps ∧
      (term = "" ∨ jsIncludes (jsToLower c.name) (jsToLower term) = true ∨
        ∃ d, c.description = some d ∧
          jsIncludes (jsToLower d) (jsToLower term) = true) ∧
      (t = "" ∨ c.tower = t) ∧
      (s = "" ∨ c.status = s) ∧
      (cx = "" ∨ c.complexity = cx) := by
  rw [filteredComponentsFE, List.mem_filter]
  refine and_congr_right fun _ => ?_
  simp only [matchesFiltersFE, Bool.and_eq_true, Bool.or_eq_true,
    decide_eq_true_eq]
  cases hd : c.description <;> simp [hd] <;> tauto

/-- C10: after a successful `deleteComponent(id)` the client-side list is
the previous list with exactly the entries whose id equals the deleted id
removed — every surviving entry keeps its relative order (the result is a
sublist of the previous list) and every entry with a different id is
retained — and on a failure response or a thrown error the list is left
unchanged and the call reports `false`. -/
theorem delete_component_frame (id : Int) (comps : List ApiComponent)
    (m : String) :
    (deleteComponentStep .ok id comps).1 = true ∧
    (∀ c ∈ (deleteComponentStep .ok id comps).2, c.id ≠ some id) ∧
    List.Sublist (deleteComponentStep .ok id comps).2 comps ∧
    (∀ c ∈ comps, c.id ≠ some id → c ∈ (deleteComponentStep .ok id comps).2) ∧
    (deleteComponentStep (.fail m) id comps).1 = false ∧
    (deleteComponentStep (.fail m) id comps).2 = comps ∧
    (deleteComponentStep (.exn m) id comps).1 = false ∧
    (deleteComponentStep (.exn m) id comps).2 = comps := by
  refine ⟨rfl, ?_, ?_, ?_, rfl, rfl, rfl, rfl⟩
  · intro c hc
    simp only [deleteComponentStep] at hc
    simpa using (List.mem_filter.mp hc).2
  · exact List.filter_sublist _
  · intro c hc hne
    simp only [deleteComponentStep]
    exact List.mem_filter.mpr ⟨hc, by simpa using hne⟩
